import Mathlib

/-!
Verification of the low-energy-meter real-time sampling/control pipeline.

The development shallowly embeds the two C source files:
  * `src/low-energy-meter.c` — the charge/discharge state machine of the
    sampling thread (`sampling_thread_loop`), the absolute-time scheduler
    helpers (`next_sampling_time`, `to_nanosec`), and the startup argument
    validation of `main`;
  * `src/mcp320x.c` — the MCP3208 sample assembly (`sample`,
    `get_sample_singleended`).

External effects of the sampling thread (GPIO writes, settle waits, ring
pushes, absolute sleeps, diagnostics) are made explicit as an event trace;
clock reads and ADC readings are oracle inputs supplied per iteration.
The ring buffer (`ring.c`/`ring.h`) is not among the sources and is modelled
from the specification where noted.
-/

namespace LowEnergyMeter

/-- `struct timespec` as used by the sampling thread (seconds, nanoseconds). -/
structure Timespec where
  tv_sec : Int
  tv_nsec : Int
deriving DecidableEq, Repr

/-- `next_sampling_time` (low-energy-meter.c, lines 145-160): component-wise
addition of the interval with carry normalization of the nanosecond field. -/
def next_sampling_time (tlast interval : Timespec) : Timespec :=
  let sec := tlast.tv_sec + interval.tv_sec
  let nsec := tlast.tv_nsec + interval.tv_nsec
  if nsec ≥ 1000000000 then ⟨sec + 1, nsec - 1000000000⟩ else ⟨sec, nsec⟩

/-- `to_nanosec` (low-energy-meter.c, lines 168-174): timespec to a single
nanosecond count. -/
def to_nanosec (t : Timespec) : Int :=
  1000000000 * t.tv_sec + t.tv_nsec

/-- `struct ring_entry` as filled at low-energy-meter.c lines 266-269:
timestamp in nanoseconds, raw sample value, epoch counter. -/
structure ring_entry where
  timestamp : Int
  value : Int
  epoch : Nat
deriving DecidableEq, Repr

/-- `enum State` of the sampling thread (line 210). -/
inductive State where
  | charging
  | discharging
deriving DecidableEq, Repr

/-- The loop-carried state of `sampling_thread_loop`: controller state,
epoch counter, and the scheduling baseline `tsample`. -/
structure LoopSt where
  state : State
  epoch : Nat
  tsample : Timespec
deriving DecidableEq, Repr

/-- Observable actions of one iteration of the sampling thread, in program
order: ADC read, diagnostics, GPIO relay commands, settle waits, ring pushes
and absolute-deadline sleeps. -/
inductive Event where
  | sample_taken (v : Int)
  | reportError
  | gpio_clr_charge
  | gpio_set_charge
  | gpio_clr_discharge
  | gpio_set_discharge
  | settle_wait
  | ring_put_ev (e : ring_entry)
  | sleep_until (t : Timespec)
deriving DecidableEq, Repr

/-- The startup sequence of `sampling_thread_loop` (lines 208-221): open the
discharge relay, wait 100 ms, then close the charge relay. -/
def startup_events : List Event :=
  [Event.gpio_clr_discharge, Event.settle_wait, Event.gpio_set_charge]

/-- State at loop entry (lines 210, 223-225): charging, epoch 0, baseline
from `clock_gettime` (oracle input `t0`). -/
def init_state (t0 : Timespec) : LoopSt :=
  ⟨State.charging, 0, t0⟩

/-- One iteration of the `while (true)` loop of `sampling_thread_loop`
(lines 226-295).  `up`/`lo` are `threshold_upper`/`threshold_lower`, `iv` is
`sampling_interval`; per-iteration oracle inputs are the ADC reading `v`
(line 228), the sample timestamp `tnow` (line 232), and `tpost`, the value
`clock_gettime` returns at line 256 after the charge→discharge settle wait.
Returns the next loop state and the iteration's event list. -/
def loop_body (up lo : Int) (iv : Timespec) (s : LoopSt)
    (v : Int) (tnow tpost : Timespec) : LoopSt × List Event :=
  if v = -1 then
    (s, [Event.sample_taken v, Event.reportError])
  else if s.state = State.charging then
    if v ≥ up then
      (⟨State.discharging, s.epoch + 1, tpost⟩,
       [Event.sample_taken v, Event.gpio_clr_charge, Event.settle_wait,
        Event.gpio_set_discharge])
    else
      let tnext := next_sampling_time s.tsample iv
      (⟨State.charging, s.epoch, tnext⟩,
       [Event.sample_taken v, Event.sleep_until tnext])
  else
    let entry : ring_entry := ⟨to_nanosec tnow, v, s.epoch⟩
    if v ≤ lo then
      (⟨State.charging, s.epoch, s.tsample⟩,
       [Event.sample_taken v, Event.ring_put_ev entry,
        Event.gpio_clr_discharge, Event.settle_wait, Event.gpio_set_charge])
    else
      let tnext := next_sampling_time s.tsample iv
      (⟨State.discharging, s.epoch, tnext⟩,
       [Event.sample_taken v, Event.ring_put_ev entry,
        Event.sleep_until tnext])

/-- Run the loop over a list of per-iteration oracle inputs
`(v, tnow, tpost)`, concatenating the iterations' event lists. -/
def run_loop (up lo : Int) (iv : Timespec) (s : LoopSt) :
    List (Int × Timespec × Timespec) → LoopSt × List Event
  | [] => (s, [])
  | (v, tnow, tpost) :: rest =>
    let out := loop_body up lo iv s v tnow tpost
    let tail := run_loop up lo iv out.1 rest
    (tail.1, out.2 ++ tail.2)

/-- The full event trace of the sampling thread: startup relay sequence
followed by the loop iterations. -/
def sampling_trace (up lo : Int) (iv : Timespec) (t0 : Timespec)
    (inputs : List (Int × Timespec × Timespec)) : List Event :=
  startup_events ++ (run_loop up lo iv (init_state t0) inputs).2

/-- Commanded relay levels (charge closed?, discharge closed?) after one
GPIO event; non-GPIO events leave the levels unchanged. -/
def relay_step (c d : Bool) : Event → Bool × Bool
  | Event.gpio_clr_charge => (false, d)
  | Event.gpio_set_charge => (true, d)
  | Event.gpio_clr_discharge => (c, false)
  | Event.gpio_set_discharge => (c, true)
  | _ => (c, d)

/-- Commanded relay levels after a whole event list, starting from `(c, d)`. -/
def relay_fold (c d : Bool) : List Event → Bool × Bool
  | [] => (c, d)
  | e :: rest => relay_fold (relay_step c d e).1 (relay_step c d e).2 rest

/-- Checks that along an event list (starting from commanded levels
`(c, d)`) the two relays are never both commanded closed. -/
def relay_safe (c d : Bool) : List Event → Bool
  | [] => true
  | e :: rest =>
    !((relay_step c d e).1 && (relay_step c d e).2) &&
      relay_safe (relay_step c d e).1 (relay_step c d e).2 rest

/-- Checks that every sample is taken while exactly one relay is commanded
closed, i.e. no sampling interleaves an open-settle-close window. -/
def sample_guarded (c d : Bool) : List Event → Bool
  | [] => true
  | Event.sample_taken _ :: rest => (c != d) && sample_guarded c d rest
  | e :: rest => sample_guarded (relay_step c d e).1 (relay_step c d e).2 rest

/-- Checks break-before-make: every relay close (`set`) and every settle
wait occurs only inside a contiguous `clr`-of-the-other / settle / `set`
triple, with nothing interleaved. -/
def break_before_make : List Event → Bool
  | [] => true
  | Event.gpio_clr_charge :: Event.settle_wait :: Event.gpio_set_discharge :: rest =>
      break_before_make rest
  | Event.gpio_clr_discharge :: Event.settle_wait :: Event.gpio_set_charge :: rest =>
      break_before_make rest
  | Event.gpio_clr_charge :: _ => false
  | Event.gpio_clr_discharge :: _ => false
  | Event.gpio_set_charge :: _ => false
  | Event.gpio_set_discharge :: _ => false
  | Event.settle_wait :: _ => false
  | _ :: rest => break_before_make rest

/-- The ring entries pushed along an event list, in order. -/
def put_entries : List Event → List ring_entry
  | [] => []
  | Event.ring_put_ev e :: rest => e :: put_entries rest
  | _ :: rest => put_entries rest

/-- Whether an event list contains an absolute-deadline sleep. -/
def has_sleep : List Event → Bool
  | [] => false
  | Event.sleep_until _ :: _ => true
  | _ :: rest => has_sleep rest

/-- `enum channel_singleended` (mcp320x.h, as used by mcp320x.c). -/
inductive channel_singleended where
  | CH0 | CH1 | CH2 | CH3 | CH4 | CH5 | CH6 | CH7
deriving DecidableEq, Repr

/-- The configuration byte sent on the bus (mcp320x.c, lines 23-24, 35):
`startbit | sebit | (channel_config << 3)`. -/
def mcp_config (channel_config : Nat) : Nat :=
  (0x80 ||| 0x40 ||| (channel_config <<< 3)) % 256

/-- `sample` (mcp320x.c, lines 33-51), as a function of the three bytes the
SPI exchange leaves in `data` (uint8 values, modelled with `% 256`): the
12-bit code is `(data[0] & 0x01) << 11 | data[1] << 3 | (data[2] & 0xe0)
>> 5`.  For byte values the three fields occupy disjoint bit ranges, so
the bitwise-or is the sum, `data[0] & 0x01` is `d0 % 2` and `(data[2] &
0xe0) >> 5` is `d2 / 32`.  The result fits int16, so the final cast is the
identity.  The configuration byte `mcp_config channel_config` only selects
the channel on the bus and does not enter the assembled value. -/
def sample (channel_config : Nat) (d0 d1 d2 : Nat) : Int :=
  Int.ofNat ((d0 % 256 % 2) * 2048 + (d1 % 256) * 8 + (d2 % 256) / 32)

/-- `get_sample_singleended` (mcp320x.c, lines 53-86): maps each valid
single-ended channel to its 3-bit configuration and delegates to `sample`.
The C `default: return -1` branch is unreachable for the eight valid enum
values, which the Lean enumeration covers totally. -/
def get_sample_singleended (adc_channel : channel_singleended)
    (d0 d1 d2 : Nat) : Int :=
  match adc_channel with
  | channel_singleended.CH0 => sample 0 d0 d1 d2
  | channel_singleended.CH1 => sample 1 d0 d1 d2
  | channel_singleended.CH2 => sample 2 d0 d1 d2
  | channel_singleended.CH3 => sample 3 d0 d1 d2
  | channel_singleended.CH4 => sample 4 d0 d1 d2
  | channel_singleended.CH5 => sample 5 d0 d1 d2
  | channel_singleended.CH6 => sample 6 d0 d1 d2
  | channel_singleended.CH7 => sample 7 d0 d1 d2

/-- The command-line argument strings collected by the `getopt` loop of
`main` (low-energy-meter.c, lines 339-373); `none` models a NULL pointer
(option absent). -/
structure CmdArgs where
  sampling_frequency_arg : Option String
  logfile_arg : Option String
  threshold_lower_arg : Option String
  threshold_upper_arg : Option String
  task_priority_arg : Option String
deriving DecidableEq, Repr

/-- C `atoi` restricted to the plain decimal strings relevant here: an
optional leading minus sign followed by digits (no whitespace skipping),
stopping at the first non-digit. -/
def atoi_digits : List Char → Int → Int
  | [], acc => acc
  | c :: rest, acc =>
    if c.isDigit then atoi_digits rest (10 * acc + (c.toNat - 48)) else acc

/-- See `atoi_digits`. -/
def atoi (s : String) : Int :=
  match s.data with
  | c :: rest =>
    if c.toNat = 45 then -(atoi_digits rest 0) else atoi_digits s.data 0
  | [] => 0

/-- The startup validation of `main` (low-energy-meter.c, lines 375-390):
`die(-1)` — modelled as `none` — exactly when one of the four required
argument strings is NULL; otherwise the thresholds are parsed with `atoi`
and `main` proceeds (to SPI/GPIO setup and thread creation) with no further
validation of the parsed values.  Returns `(threshold_lower,
threshold_upper)` on the proceeding path. -/
def main_startup (a : CmdArgs) : Option (Int × Int) :=
  match a.sampling_frequency_arg, a.logfile_arg,
        a.threshold_lower_arg, a.threshold_upper_arg with
  | some _, some _, some lo, some up => some (atoi lo, atoi up)
  | _, _, _, _ => none

/-- Modelled from the spec: the bounded ring buffer of `ring.c`/`ring.h` is
not among the sources; §4.1 of the design specifies a fixed-capacity FIFO of
sample records with one producer and one consumer, where `put` blocks while
the buffer is full and `get` blocks while it is empty. -/
structure Ring where
  buf : List ring_entry
  cap : Nat
deriving DecidableEq, Repr

/-- Modelled from the spec: `ring_put` appends at the tail when the buffer
has room; `none` models the producer blocking on a full buffer. -/
def ring_put (r : Ring) (x : ring_entry) : Option Ring :=
  if r.buf.length < r.cap then some ⟨r.buf ++ [x], r.cap⟩ else none

/-- Modelled from the spec: `ring_get` removes from the head; `none` models
the consumer blocking on an empty buffer. -/
def ring_get (r : Ring) : Option (Ring × ring_entry) :=
  match r.buf with
  | [] => none
  | x :: rest => some (⟨rest, r.cap⟩, x)

/-- Producer/consumer system state: records the producer has not yet put,
the ring, and the records the consumer has got, in consumption order. -/
structure SysSt where
  pending : List ring_entry
  ring : Ring
  out : List ring_entry
deriving DecidableEq, Repr

/-- One scheduling step: `true` lets the producer attempt `ring_put` of its
next record, `false` lets the consumer attempt `ring_get`; a blocked attempt
(full on put, empty on get) leaves the state unchanged, modelling the thread
staying blocked until rescheduled. -/
def sys_step (s : SysSt) : Bool → SysSt
  | true =>
    match s.pending with
    | [] => s
    | x :: rest =>
      match ring_put s.ring x with
      | some r => ⟨rest, r, s.out⟩
      | none => s
  | false =>
    match ring_get s.ring with
    | some (r, x) => ⟨s.pending, r, s.out ++ [x]⟩
    | none => s

/-- Run the producer/consumer system over an arbitrary interleaving. -/
def sys_run (s : SysSt) : List Bool → SysSt
  | [] => s
  | b :: rest => sys_run (sys_step s b) rest

/-- The alternating schedule: each produced record is put and then got. -/
def alt_sched : Nat → List Bool
  | 0 => []
  | n + 1 => true :: false :: alt_sched n

/-- The commanded relay levels corresponding to a controller state: charging
holds the charge relay closed, discharging the discharge relay. -/
def relay_of : State → Bool × Bool
  | State.charging => (true, false)
  | State.discharging => (false, true)

lemma relay_fold_append (a b : List Event) : ∀ c d,
    relay_fold c d (a ++ b) =
      relay_fold (relay_fold c d a).1 (relay_fold c d a).2 b := by
  induction a with
  | nil => intro c d; rfl
  | cons e a ih => intro c d; simp [relay_fold, ih]

lemma relay_safe_append (a b : List Event) : ∀ c d,
    relay_safe c d (a ++ b) =
      (relay_safe c d a &&
        relay_safe (relay_fold c d a).1 (relay_fold c d a).2 b) := by
  induction a with
  | nil => intro c d; simp [relay_safe, relay_fold]
  | cons e a ih =>
    intro c d
    simp [relay_safe, relay_fold, ih, Bool.and_assoc]

lemma sample_guarded_append (a b : List Event) : ∀ c d,
    sample_guarded c d (a ++ b) =
      (sample_guarded c d a &&
        sample_guarded (relay_fold c d a).1 (relay_fold c d a).2 b) := by
  induction a with
  | nil => intro c d; simp [sample_guarded, relay_fold]
  | cons e a ih =>
    intro c d
    cases e <;>
      simp [sample_guarded, relay_fold, relay_step, ih, Bool.and_assoc]

lemma put_entries_append (a b : List Event) :
    put_entries (a ++ b) = put_entries a ++ put_entries b := by
  induction a with
  | nil => rfl
  | cons e a ih => cases e <;> simp [put_entries, ih]

lemma run_loop_cons (up lo : Int) (iv : Timespec) (s : LoopSt)
    (v : Int) (tnow tpost : Timespec)
    (rest : List (Int × Timespec × Timespec)) :
    run_loop up lo iv s ((v, tnow, tpost) :: rest) =
      ((run_loop up lo iv (loop_body up lo iv s v tnow tpost).1 rest).1,
       (loop_body up lo iv s v tnow tpost).2 ++
         (run_loop up lo iv (loop_body up lo iv s v tnow tpost).1 rest).2) :=
  rfl

/-- The error branch of the loop body (lines 234-236): diagnostic only, the
loop state is untouched. -/
lemma loop_body_err (up lo : Int) (iv : Timespec) (s : LoopSt)
    (v : Int) (tnow tpost : Timespec) (hv : v = -1) :
    loop_body up lo iv s v tnow tpost =
      (s, [Event.sample_taken v, Event.reportError]) := by
  simp [loop_body, hv]

/-- The charging→discharging branch (lines 239-256). -/
lemma loop_body_chg_up (up lo : Int) (iv : Timespec) (s : LoopSt)
    (v : Int) (tnow tpost : Timespec) (hv : v ≠ -1)
    (hst : s.state = State.charging) (hup : v ≥ up) :
    loop_body up lo iv s v tnow tpost =
      (⟨State.discharging, s.epoch + 1, tpost⟩,
       [Event.sample_taken v, Event.gpio_clr_charge, Event.settle_wait,
        Event.gpio_set_discharge]) := by
  simp [loop_body, hv, hst, hup]

/-- The charging continuation branch (lines 257-263). -/
lemma loop_body_chg_stay (up lo : Int) (iv : Timespec) (s : LoopSt)
    (v : Int) (tnow tpost : Timespec) (hv : v ≠ -1)
    (hst : s.state = State.charging) (hup : ¬v ≥ up) :
    loop_body up lo iv s v tnow tpost =
      (⟨State.charging, s.epoch, next_sampling_time s.tsample iv⟩,
       [Event.sample_taken v,
        Event.sleep_until (next_sampling_time s.tsample iv)]) := by
  simp [loop_body, hv, hst, hup]

/-- The discharging→charging branch (lines 264-286): the sample is pushed
to the ring first, then the transition runs. -/
lemma loop_body_dis_down (up lo : Int) (iv : Timespec) (s : LoopSt)
    (v : Int) (tnow tpost : Timespec) (hv : v ≠ -1)
    (hst : s.state = State.discharging) (hlo : v ≤ lo) :
    loop_body up lo iv s v tnow tpost =
      (⟨State.charging, s.epoch, s.tsample⟩,
       [Event.sample_taken v,
        Event.ring_put_ev ⟨to_nanosec tnow, v, s.epoch⟩,
        Event.gpio_clr_discharge, Event.settle_wait,
        Event.gpio_set_charge]) := by
  simp [loop_body, hv, hst, hlo]

/-- The discharging continuation branch (lines 264-270, 287-293). -/
lemma loop_body_dis_stay (up lo : Int) (iv : Timespec) (s : LoopSt)
    (v : Int) (tnow tpost : Timespec) (hv : v ≠ -1)
    (hst : s.state = State.discharging) (hlo : ¬v ≤ lo) :
    loop_body up lo iv s v tnow tpost =
      (⟨State.discharging, s.epoch, next_sampling_time s.tsample iv⟩,
       [Event.sample_taken v,
        Event.ring_put_ev ⟨to_nanosec tnow, v, s.epoch⟩,
        Event.sleep_until (next_sampling_time s.tsample iv)]) := by
  simp [loop_body, hv, hst, hlo]

/-- The relays are never both commanded closed along any run of the loop,
starting from the relay configuration matching the controller state. -/
lemma run_loop_relay_safe (up lo : Int) (iv : Timespec) :
    ∀ (inputs : List (Int × Timespec × Timespec)) (s : LoopSt),
    relay_safe (relay_of s.state).1 (relay_of s.state).2
        (run_loop up lo iv s inputs).2 = true := by
  intro inputs
  induction inputs with
  | nil => intro s; rfl
  | cons p rest ih =>
    obtain ⟨v, tnow, tpost⟩ := p
    intro s
    obtain ⟨st, ep, ts⟩ := s
    by_cases hv : v = -1
    · rw [run_loop_cons, loop_body_err up lo iv _ v tnow tpost hv,
        relay_safe_append]
      cases st
      · simpa [relay_safe, relay_step, relay_fold, relay_of]
          using ih ⟨State.charging, ep, ts⟩
      · simpa [relay_safe, relay_step, relay_fold, relay_of]
          using ih ⟨State.discharging, ep, ts⟩
    · cases st
      · by_cases hup : v ≥ up
        · rw [run_loop_cons, loop_body_chg_up up lo iv _ v tnow tpost hv rfl hup,
            relay_safe_append]
          simpa [relay_safe, relay_step, relay_fold, relay_of]
            using ih ⟨State.discharging, ep + 1, tpost⟩
        · rw [run_loop_cons,
            loop_body_chg_stay up lo iv _ v tnow tpost hv rfl hup,
            relay_safe_append]
          simpa [relay_safe, relay_step, relay_fold, relay_of]
            using ih ⟨State.charging, ep, next_sampling_time ts iv⟩
      · by_cases hlo : v ≤ lo
        · rw [run_loop_cons,
            loop_body_dis_down up lo iv _ v tnow tpost hv rfl hlo,
            relay_safe_append]
          simpa [relay_safe, relay_step, relay_fold, relay_of]
            using ih ⟨State.charging, ep, ts⟩
        · rw [run_loop_cons,
            loop_body_dis_stay up lo iv _ v tnow tpost hv rfl hlo,
            relay_safe_append]
          simpa [relay_safe, relay_step, relay_fold, relay_of]
            using ih ⟨State.discharging, ep, next_sampling_time ts iv⟩

/-- Samples are only ever taken while exactly one relay is commanded
closed: no sampling interleaves an open-settle-close transition window. -/
lemma run_loop_sample_guarded (up lo : Int) (iv : Timespec) :
    ∀ (inputs : List (Int × Timespec × Timespec)) (s : LoopSt),
    sample_guarded (relay_of s.state).1 (relay_of s.state).2
        (run_loop up lo iv s inputs).2 = true := by
  intro inputs
  induction inputs with
  | nil => intro s; rfl
  | cons p rest ih =>
    obtain ⟨v, tnow, tpost⟩ := p
    intro s
    obtain ⟨st, ep, ts⟩ := s
    by_cases hv : v = -1
    · rw [run_loop_cons, loop_body_err up lo iv _ v tnow tpost hv,
        sample_guarded_append]
      cases st
      · simpa [sample_guarded, relay_step, relay_fold, relay_of]
          using ih ⟨State.charging, ep, ts⟩
      · simpa [sample_guarded, relay_step, relay_fold, relay_of]
          using ih ⟨State.discharging, ep, ts⟩
    · cases st
      · by_cases hup : v ≥ up
        · rw [run_loop_cons, loop_body_chg_up up lo iv _ v tnow tpost hv rfl hup,
            sample_guarded_append]
          simpa [sample_guarded, relay_step, relay_fold, relay_of]
            using ih ⟨State.discharging, ep + 1, tpost⟩
        · rw [run_loop_cons,
            loop_body_chg_stay up lo iv _ v tnow tpost hv rfl hup,
            sample_guarded_append]
          simpa [sample_guarded, relay_step, relay_fold, relay_of]
            using ih ⟨State.charging, ep, next_sampling_time ts iv⟩
      · by_cases hlo : v ≤ lo
        · rw [run_loop_cons,
            loop_body_dis_down up lo iv _ v tnow tpost hv rfl hlo,
            sample_guarded_append]
          simpa [sample_guarded, relay_step, relay_fold, relay_of]
            using ih ⟨State.charging, ep, ts⟩
        · rw [run_loop_cons,
            loop_body_dis_stay up lo iv _ v tnow tpost hv rfl hlo,
            sample_guarded_append]
          simpa [sample_guarded, relay_step, relay_fold, relay_of]
            using ih ⟨State.discharging, ep, next_sampling_time ts iv⟩

/-- Break-before-make holds along any run of the loop: every relay close
is immediately preceded by opening the other relay and a settle wait. -/
lemma run_loop_break_before_make (up lo : Int) (iv : Timespec) :
    ∀ (inputs : List (Int × Timespec × Timespec)) (s : LoopSt),
    break_before_make (run_loop up lo iv s inputs).2 = true := by
  intro inputs
  induction inputs with
  | nil => intro s; rfl
  | cons p rest ih =>
    obtain ⟨v, tnow, tpost⟩ := p
    intro s
    obtain ⟨st, ep, ts⟩ := s
    by_cases hv : v = -1
    · rw [run_loop_cons, loop_body_err up lo iv _ v tnow tpost hv]
      simpa [break_before_make] using ih ⟨st, ep, ts⟩
    · cases st
      · by_cases hup : v ≥ up
        · rw [run_loop_cons, loop_body_chg_up up lo iv _ v tnow tpost hv rfl hup]
          simpa [break_before_make]
            using ih ⟨State.discharging, ep + 1, tpost⟩
        · rw [run_loop_cons,
            loop_body_chg_stay up lo iv _ v tnow tpost hv rfl hup]
          simpa [break_before_make]
            using ih ⟨State.charging, ep, next_sampling_time ts iv⟩
      · by_cases hlo : v ≤ lo
        · rw [run_loop_cons,
            loop_body_dis_down up lo iv _ v tnow tpost hv rfl hlo]
          simpa [break_before_make] using ih ⟨State.charging, ep, ts⟩
        · rw [run_loop_cons,
            loop_body_dis_stay up lo iv _ v tnow tpost hv rfl hlo]
          simpa [break_before_make]
            using ih ⟨State.discharging, ep, next_sampling_time ts iv⟩

/-- Claim C1: along the whole sampling-thread trace — startup included —
at most one of the charge and discharge relays is ever commanded closed;
every relay close is immediately preceded by opening the other relay and a
settle wait, with nothing interleaved; and every sample is taken outside an
open-settle-close window (with exactly one relay closed). -/
theorem sampling_relay_safety (up lo : Int) (iv t0 : Timespec)
    (inputs : List (Int × Timespec × Timespec)) :
    relay_safe false false (sampling_trace up lo iv t0 inputs) = true ∧
    sample_guarded false false (sampling_trace up lo iv t0 inputs) = true ∧
    break_before_make (sampling_trace up lo iv t0 inputs) = true := by
  refine ⟨?_, ?_, ?_⟩
  · rw [sampling_trace, relay_safe_append]
    simpa [startup_events, relay_safe, relay_step, relay_fold, relay_of,
      init_state]
      using run_loop_relay_safe up lo iv inputs (init_state t0)
  · rw [sampling_trace, sample_guarded_append]
    simpa [startup_events, sample_guarded, relay_step, relay_fold, relay_of,
      init_state]
      using run_loop_sample_guarded up lo iv inputs (init_state t0)
  · rw [sampling_trace]
    simpa [startup_events, break_before_make]
      using run_loop_break_before_make up lo iv inputs (init_state t0)

/-- Claim C2: a non-error sample read while Discharging is pushed to the
ring exactly once, before the lower-threshold check — in the transition
case the push precedes the relay events — and samples read while Charging
are never pushed. -/
theorem discharging_samples_recorded (up lo : Int) (iv : Timespec)
    (s : LoopSt) (v : Int) (tnow tpost : Timespec) :
    (s.state = State.discharging → v ≠ -1 →
      put_entries (loop_body up lo iv s v tnow tpost).2 =
        [⟨to_nanosec tnow, v, s.epoch⟩] ∧
      (v ≤ lo → (loop_body up lo iv s v tnow tpost).2 =
        [Event.sample_taken v,
         Event.ring_put_ev ⟨to_nanosec tnow, v, s.epoch⟩,
         Event.gpio_clr_discharge, Event.settle_wait,
         Event.gpio_set_charge])) ∧
    (s.state = State.charging →
      put_entries (loop_body up lo iv s v tnow tpost).2 = []) := by
  constructor
  · intro hst hv
    by_cases hlo : v ≤ lo
    · rw [loop_body_dis_down up lo iv s v tnow tpost hv hst hlo]
      exact ⟨by simp [put_entries], fun _ => rfl⟩
    · rw [loop_body_dis_stay up lo iv s v tnow tpost hv hst hlo]
      exact ⟨by simp [put_entries], fun h => absurd h hlo⟩
  · intro hst
    by_cases hv : v = -1
    · rw [loop_body_err up lo iv s v tnow tpost hv]
      simp [put_entries]
    · by_cases hup : v ≥ up
      · rw [loop_body_chg_up up lo iv s v tnow tpost hv hst hup]
        simp [put_entries]
      · rw [loop_body_chg_stay up lo iv s v tnow tpost hv hst hup]
        simp [put_entries]

/-- Witness for claim C2 at thresholds (100, 3000): the discharging sample
2000 at epoch 1 is recorded exactly once; the same sample read while
Charging is not recorded. -/
theorem discharging_samples_recorded_witness :
    put_entries (loop_body 3000 100 ⟨0, 100000000⟩
        ⟨State.discharging, 1, ⟨0, 0⟩⟩ 2000 ⟨2, 5⟩ ⟨3, 0⟩).2 =
      [⟨2000000005, 2000, 1⟩] ∧
    put_entries (loop_body 3000 100 ⟨0, 100000000⟩
        ⟨State.charging, 1, ⟨0, 0⟩⟩ 2000 ⟨2, 5⟩ ⟨3, 0⟩).2 = [] := by
  constructor
  · exact ((discharging_samples_recorded 3000 100 ⟨0, 100000000⟩
      ⟨State.discharging, 1, ⟨0, 0⟩⟩ 2000 ⟨2, 5⟩ ⟨3, 0⟩).1 rfl (by decide)).1
  · exact (discharging_samples_recorded 3000 100 ⟨0, 100000000⟩
      ⟨State.charging, 1, ⟨0, 0⟩⟩ 2000 ⟨2, 5⟩ ⟨3, 0⟩).2 rfl

/-- Claim C3 (counterexample): with lower threshold 100, the Discharging
sample 50 triggers the transition to Charging, yet a record for the 50
sample IS pushed to the ring — the push at line 270 precedes the threshold
check at line 273 — refuting "no record is emitted to the Channel for that
triggering sample". -/
theorem boundary_sample_counterexample :
    (loop_body 3000 100 ⟨0, 100000000⟩ ⟨State.discharging, 1, ⟨1, 0⟩⟩
        50 ⟨2, 0⟩ ⟨3, 0⟩).1.state = State.charging ∧
    put_entries (loop_body 3000 100 ⟨0, 100000000⟩
        ⟨State.discharging, 1, ⟨1, 0⟩⟩ 50 ⟨2, 0⟩ ⟨3, 0⟩).2 =
      [⟨2000000000, 50, 1⟩] := by
  decide

/-- Claim C3 (amended): while Discharging, a non-error sample ≤ the lower
threshold triggers the transition to Charging (open discharge relay,
settle-wait, close charge relay), and exactly one record for that
triggering sample IS emitted to the Channel, the push preceding the relay
transition events. -/
theorem boundary_sample_transition (up lo : Int) (iv : Timespec)
    (s : LoopSt) (v : Int) (tnow tpost : Timespec)
    (hst : s.state = State.discharging) (hv : v ≠ -1) (hlo : v ≤ lo) :
    (loop_body up lo iv s v tnow tpost).1.state = State.charging ∧
    (loop_body up lo iv s v tnow tpost).2 =
      [Event.sample_taken v,
       Event.ring_put_ev ⟨to_nanosec tnow, v, s.epoch⟩,
       Event.gpio_clr_discharge, Event.settle_wait,
       Event.gpio_set_charge] := by
  rw [loop_body_dis_down up lo iv s v tnow tpost hv hst hlo]
  exact ⟨rfl, rfl⟩

/-- Witness for the amended claim C3 at the sample 80 ≤ 100. -/
theorem boundary_sample_transition_witness :
    (loop_body 3000 100 ⟨0, 100000000⟩ ⟨State.discharging, 2, ⟨4, 0⟩⟩
        80 ⟨5, 0⟩ ⟨6, 0⟩).1.state = State.charging ∧
    (loop_body 3000 100 ⟨0, 100000000⟩ ⟨State.discharging, 2, ⟨4, 0⟩⟩
        80 ⟨5, 0⟩ ⟨6, 0⟩).2 =
      [Event.sample_taken 80, Event.ring_put_ev ⟨5000000000, 80, 2⟩,
       Event.gpio_clr_discharge, Event.settle_wait,
       Event.gpio_set_charge] :=
  boundary_sample_transition 3000 100 ⟨0, 100000000⟩
    ⟨State.discharging, 2, ⟨4, 0⟩⟩ 80 ⟨5, 0⟩ ⟨6, 0⟩ rfl (by decide) (by decide)

/-- Along any run of the loop, no pushed record carries the -1 sentinel. -/
lemma run_loop_put_no_error (up lo : Int) (iv : Timespec) :
    ∀ (inputs : List (Int × Timespec × Timespec)) (s : LoopSt)
    (e : ring_entry),
    e ∈ put_entries (run_loop up lo iv s inputs).2 → e.value ≠ -1 := by
  intro inputs
  induction inputs with
  | nil => intro s e he; simp [run_loop, put_entries] at he
  | cons p rest ih =>
    obtain ⟨v, tnow, tpost⟩ := p
    intro s e he
    obtain ⟨st, ep, ts⟩ := s
    rw [run_loop_cons, put_entries_append, List.mem_append] at he
    by_cases hv : v = -1
    · rw [loop_body_err up lo iv _ v tnow tpost hv] at he
      rcases he with h | h
      · simp [put_entries] at h
      · exact ih _ e h
    · cases st
      · by_cases hup : v ≥ up
        · rw [loop_body_chg_up up lo iv _ v tnow tpost hv rfl hup] at he
          rcases he with h | h
          · simp [put_entries] at h
          · exact ih _ e h
        · rw [loop_body_chg_stay up lo iv _ v tnow tpost hv rfl hup] at he
          rcases he with h | h
          · simp [put_entries] at h
          · exact ih _ e h
      · by_cases hlo : v ≤ lo
        · rw [loop_body_dis_down up lo iv _ v tnow tpost hv rfl hlo] at he
          rcases he with h | h
          · simp [put_entries] at h
            subst h
            exact hv
          · exact ih _ e h
        · rw [loop_body_dis_stay up lo iv _ v tnow tpost hv rfl hlo] at he
          rcases he with h | h
          · simp [put_entries] at h
            subst h
            exact hv
          · exact ih _ e h

/-- Claim C5: a -1 reading is reported as a diagnostic and leaves the loop
state — controller state, epoch, scheduling baseline — entirely unchanged
(no transition, no epoch advance, no push), and no record carrying the -1
sentinel is ever pushed along any run. -/
theorem error_sentinel_handling (up lo : Int) (iv : Timespec)
    (s : LoopSt) (v : Int) (tnow tpost : Timespec)
    (inputs : List (Int × Timespec × Timespec)) :
    (v = -1 → loop_body up lo iv s v tnow tpost =
      (s, [Event.sample_taken v, Event.reportError])) ∧
    ∀ e ∈ put_entries (run_loop up lo iv s inputs).2, e.value ≠ -1 := by
  constructor
  · intro hv
    exact loop_body_err up lo iv s v tnow tpost hv
  · intro e he
    exact run_loop_put_no_error up lo iv inputs s e he

/-- Witness for claim C5: a concrete -1 iteration leaves the state intact,
and a concrete pushed record does not carry the sentinel. -/
theorem error_sentinel_handling_witness :
    loop_body 3000 100 ⟨0, 100000000⟩ ⟨State.charging, 0, ⟨0, 0⟩⟩
        (-1) ⟨1, 0⟩ ⟨1, 0⟩ =
      (⟨State.charging, 0, ⟨0, 0⟩⟩,
       [Event.sample_taken (-1), Event.reportError]) ∧
    (⟨1000000000, 2000, 0⟩ : ring_entry).value ≠ -1 := by
  constructor
  · exact (error_sentinel_handling 3000 100 ⟨0, 100000000⟩
      ⟨State.charging, 0, ⟨0, 0⟩⟩ (-1) ⟨1, 0⟩ ⟨1, 0⟩ []).1 rfl
  · exact (error_sentinel_handling 3000 100 ⟨0, 100000000⟩
      ⟨State.discharging, 0, ⟨0, 0⟩⟩ 5 ⟨1, 0⟩ ⟨1, 0⟩
      [(2000, ⟨1, 0⟩, ⟨1, 0⟩)]).2 ⟨1000000000, 2000, 0⟩ (by decide)

/-- Claim C6 (counterexample): on a -1 reading the loop performs no
absolute-deadline sleep and leaves the baseline untouched, whereas the
below-threshold charging sample 10 does sleep until the next deadline —
refuting the claim that the error action equals the below-threshold action
of sleeping until the next absolute deadline. -/
theorem error_cadence_counterexample :
    has_sleep (loop_body 3000 100 ⟨0, 100000000⟩ ⟨State.charging, 0, ⟨0, 0⟩⟩
        (-1) ⟨1, 0⟩ ⟨1, 0⟩).2 = false ∧
    has_sleep (loop_body 3000 100 ⟨0, 100000000⟩ ⟨State.charging, 0, ⟨0, 0⟩⟩
        10 ⟨1, 0⟩ ⟨1, 0⟩).2 = true := by
  decide

/-- Claim C6 (amended): on a sample read error (-1) the loop does not
sleep: no absolute-deadline sleep event is emitted, the scheduling baseline
`tsample` is left unchanged, and the loop proceeds immediately to the next
read rather than waiting for the next scheduled deadline. -/
theorem error_no_sleep (up lo : Int) (iv : Timespec) (s : LoopSt)
    (v : Int) (tnow tpost : Timespec) (hv : v = -1) :
    has_sleep (loop_body up lo iv s v tnow tpost).2 = false ∧
    (loop_body up lo iv s v tnow tpost).1 = s := by
  rw [loop_body_err up lo iv s v tnow tpost hv]
  exact ⟨rfl, rfl⟩

/-- Witness for the amended claim C6. -/
theorem error_no_sleep_witness :
    has_sleep (loop_body 3000 100 ⟨0, 100000000⟩
        ⟨State.discharging, 3, ⟨9, 0⟩⟩ (-1) ⟨10, 0⟩ ⟨10, 0⟩).2 = false ∧
    (loop_body 3000 100 ⟨0, 100000000⟩ ⟨State.discharging, 3, ⟨9, 0⟩⟩
        (-1) ⟨10, 0⟩ ⟨10, 0⟩).1 = ⟨State.discharging, 3, ⟨9, 0⟩⟩ :=
  error_no_sleep 3000 100 ⟨0, 100000000⟩ ⟨State.discharging, 3, ⟨9, 0⟩⟩
    (-1) ⟨10, 0⟩ ⟨10, 0⟩ rfl

/-- Claim C7 (counterexample): on the Discharging→Charging transition
(sample 50 ≤ 100) the scheduling baseline is NOT reset: it stays at the old
value ⟨5, 0⟩, which differs from both the sample time ⟨7, 0⟩ and the
post-settle time ⟨8, 0⟩ — refuting "on every transition the deadline
baseline is reset to the current time". -/
theorem baseline_reset_counterexample :
    (loop_body 3000 100 ⟨0, 100000000⟩ ⟨State.discharging, 2, ⟨5, 0⟩⟩
        50 ⟨7, 0⟩ ⟨8, 0⟩).1.state = State.charging ∧
    (loop_body 3000 100 ⟨0, 100000000⟩ ⟨State.discharging, 2, ⟨5, 0⟩⟩
        50 ⟨7, 0⟩ ⟨8, 0⟩).1.tsample = ⟨5, 0⟩ ∧
    (⟨5, 0⟩ : Timespec) ≠ ⟨7, 0⟩ ∧ (⟨5, 0⟩ : Timespec) ≠ ⟨8, 0⟩ := by
  decide

/-- Claim C7 (amended): the deadline baseline is reset to the current time
(the post-settle clock reading) only on the Charging→Discharging
transition; on the Discharging→Charging transition the baseline is left
unchanged. -/
theorem baseline_reset_on_transition (up lo : Int) (iv : Timespec)
    (s : LoopSt) (v : Int) (tnow tpost : Timespec) (hv : v ≠ -1) :
    (s.state = State.charging → v ≥ up →
      (loop_body up lo iv s v tnow tpost).1.tsample = tpost) ∧
    (s.state = State.discharging → v ≤ lo →
      (loop_body up lo iv s v tnow tpost).1.state = State.charging ∧
      (loop_body up lo iv s v tnow tpost).1.tsample = s.tsample) := by
  constructor
  · intro hst hup
    rw [loop_body_chg_up up lo iv s v tnow tpost hv hst hup]
  · intro hst hlo
    rw [loop_body_dis_down up lo iv s v tnow tpost hv hst hlo]
    exact ⟨rfl, rfl⟩

/-- Witness for the amended claim C7, one instance per transition kind. -/
theorem baseline_reset_on_transition_witness :
    (loop_body 3000 100 ⟨0, 100000000⟩ ⟨State.charging, 0, ⟨5, 0⟩⟩
        3200 ⟨7, 0⟩ ⟨8, 0⟩).1.tsample = ⟨8, 0⟩ ∧
    ((loop_body 3000 100 ⟨0, 100000000⟩ ⟨State.discharging, 1, ⟨5, 0⟩⟩
        60 ⟨7, 0⟩ ⟨8, 0⟩).1.state = State.charging ∧
     (loop_body 3000 100 ⟨0, 100000000⟩ ⟨State.discharging, 1, ⟨5, 0⟩⟩
        60 ⟨7, 0⟩ ⟨8, 0⟩).1.tsample = ⟨5, 0⟩) := by
  constructor
  · exact (baseline_reset_on_transition 3000 100 ⟨0, 100000000⟩
      ⟨State.charging, 0, ⟨5, 0⟩⟩ 3200 ⟨7, 0⟩ ⟨8, 0⟩ (by decide)).1
      rfl (by decide)
  · exact (baseline_reset_on_transition 3000 100 ⟨0, 100000000⟩
      ⟨State.discharging, 1, ⟨5, 0⟩⟩ 60 ⟨7, 0⟩ ⟨8, 0⟩ (by decide)).2
      rfl (by decide)

/-- Every record pushed along a run carries an epoch at least the epoch the
run started with: the epoch counter never decreases. -/
lemma run_loop_epoch_lb (up lo : Int) (iv : Timespec) :
    ∀ (inputs : List (Int × Timespec × Timespec)) (s : LoopSt)
    (e : ring_entry),
    e ∈ put_entries (run_loop up lo iv s inputs).2 → s.epoch ≤ e.epoch := by
  intro inputs
  induction inputs with
  | nil => intro s e he; simp [run_loop, put_entries] at he
  | cons p rest ih =>
    obtain ⟨v, tnow, tpost⟩ := p
    intro s e he
    obtain ⟨st, ep, ts⟩ := s
    rw [run_loop_cons, put_entries_append, List.mem_append] at he
    by_cases hv : v = -1
    · rw [loop_body_err up lo iv _ v tnow tpost hv] at he
      rcases he with h | h
      · simp [put_entries] at h
      · exact ih _ e h
    · cases st
      · by_cases hup : v ≥ up
        · rw [loop_body_chg_up up lo iv _ v tnow tpost hv rfl hup] at he
          rcases he with h | h
          · simp [put_entries] at h
          · exact le_trans (Nat.le_succ ep) (ih _ e h)
        · rw [loop_body_chg_stay up lo iv _ v tnow tpost hv rfl hup] at he
          rcases he with h | h
          · simp [put_entries] at h
          · exact ih ⟨State.charging, ep, next_sampling_time ts iv⟩ e h
      · by_cases hlo : v ≤ lo
        · rw [loop_body_dis_down up lo iv _ v tnow tpost hv rfl hlo] at he
          rcases he with h | h
          · simp [put_entries] at h
            subst h
            exact le_refl ep
          · exact ih ⟨State.charging, ep, ts⟩ e h
        · rw [loop_body_dis_stay up lo iv _ v tnow tpost hv rfl hlo] at he
          rcases he with h | h
          · simp [put_entries] at h
            subst h
            exact le_refl ep
          · exact ih ⟨State.discharging, ep, next_sampling_time ts iv⟩ e h

/-- The epochs of the records pushed along any run are non-decreasing in
push order. -/
lemma run_loop_epoch_chain (up lo : Int) (iv : Timespec) :
    ∀ (inputs : List (Int × Timespec × Timespec)) (s : LoopSt),
    List.Chain' (fun a b : ring_entry => a.epoch ≤ b.epoch)
      (put_entries (run_loop up lo iv s inputs).2) := by
  intro inputs
  induction inputs with
  | nil => intro s; simp [run_loop, put_entries]
  | cons p rest ih =>
    obtain ⟨v, tnow, tpost⟩ := p
    intro s
    obtain ⟨st, ep, ts⟩ := s
    rw [run_loop_cons, put_entries_append]
    by_cases hv : v = -1
    · rw [loop_body_err up lo iv _ v tnow tpost hv]
      simpa [put_entries] using ih ⟨st, ep, ts⟩
    · cases st
      · by_cases hup : v ≥ up
        · rw [loop_body_chg_up up lo iv _ v tnow tpost hv rfl hup]
          simpa [put_entries] using ih ⟨State.discharging, ep + 1, tpost⟩
        · rw [loop_body_chg_stay up lo iv _ v tnow tpost hv rfl hup]
          simpa [put_entries]
            using ih ⟨State.charging, ep, next_sampling_time ts iv⟩
      · by_cases hlo : v ≤ lo
        · rw [loop_body_dis_down up lo iv _ v tnow tpost hv rfl hlo]
          simp only [put_entries, List.cons_append, List.nil_append]
          refine List.chain'_cons'.mpr ⟨?_, ih ⟨State.charging, ep, ts⟩⟩
          intro y hy
          exact run_loop_epoch_lb up lo iv rest ⟨State.charging, ep, ts⟩ y
            (List.mem_of_mem_head? hy)
        · rw [loop_body_dis_stay up lo iv _ v tnow tpost hv rfl hlo]
          simp only [put_entries, List.cons_append, List.nil_append]
          refine List.chain'_cons'.mpr
            ⟨?_, ih ⟨State.discharging, ep, next_sampling_time ts iv⟩⟩
          intro y hy
          exact run_loop_epoch_lb up lo iv rest
            ⟨State.discharging, ep, next_sampling_time ts iv⟩ y
            (List.mem_of_mem_head? hy)

/-- Claim C4: the epoch counter starts at 0; one loop iteration increments
it by exactly 1 precisely when a non-error sample ≥ the upper threshold is
read while Charging (equality included, in the same iteration) and leaves
it unchanged otherwise — never decremented, never reset — and the epoch
fields of the pushed records are non-decreasing in push order. -/
theorem epoch_counter_behavior (up lo : Int) (iv : Timespec)
    (t0 : Timespec) (s : LoopSt) (v : Int) (tnow tpost : Timespec)
    (inputs : List (Int × Timespec × Timespec)) :
    (init_state t0).epoch = 0 ∧
    (loop_body up lo iv s v tnow tpost).1.epoch =
      s.epoch +
        (if v ≠ -1 ∧ s.state = State.charging ∧ v ≥ up then 1 else 0) ∧
    List.Chain' (fun a b : ring_entry => a.epoch ≤ b.epoch)
      (put_entries (run_loop up lo iv s inputs).2) := by
  refine ⟨rfl, ?_, run_loop_epoch_chain up lo iv inputs s⟩
  obtain ⟨st, ep, ts⟩ := s
  by_cases hv : v = -1
  · rw [loop_body_err up lo iv _ v tnow tpost hv]
    simp [hv]
  · cases st
    · by_cases hup : v ≥ up
      · rw [loop_body_chg_up up lo iv _ v tnow tpost hv rfl hup]
        simp [hv, hup]
      · rw [loop_body_chg_stay up lo iv _ v tnow tpost hv rfl hup]
        simp [hv, hup]
    · by_cases hlo : v ≤ lo
      · rw [loop_body_dis_down up lo iv _ v tnow tpost hv rfl hlo]
        simp [hv]
      · rw [loop_body_dis_stay up lo iv _ v tnow tpost hv rfl hlo]
        simp [hv]

/-- Claim C8 (counterexample): with all four required arguments present but
the threshold ordering inverted (lower parses to 200, upper to 100, so
lower > upper), `main` proceeds past its startup validation towards
hardware setup instead of exiting with failure — refuting the claim that an
invalid threshold ordering (or a non-positive frequency) is rejected at
startup. -/
theorem startup_validation_counterexample :
    main_startup ⟨some "10", some "log.csv", some "200", some "100",
        none⟩ = some (200, 100) ∧ (100 : Int) < 200 := by
  exact ⟨rfl, by decide⟩

/-- Claim C8 (amended): `main` exits with failure at startup, before any
relay or bus activity, exactly when one of the four required arguments
(sampling frequency, lower threshold, upper threshold, output path) is
missing; when all four are present it always proceeds with the parsed
thresholds — neither the threshold ordering nor the frequency value is
validated. -/
theorem startup_validation (a : CmdArgs) :
    (main_startup a = none ↔
      (a.sampling_frequency_arg = none ∨ a.logfile_arg = none ∨
       a.threshold_lower_arg = none ∨ a.threshold_upper_arg = none)) ∧
    (∀ f l lostr upstr p,
      main_startup ⟨some f, some l, some lostr, some upstr, p⟩ =
        some (atoi lostr, atoi upstr)) := by
  constructor
  · obtain ⟨f, l, lostr, upstr, p⟩ := a
    cases f <;> cases l <;> cases lostr <;> cases upstr <;>
      simp [main_startup]
  · intro f l lostr upstr p
    rfl

/-- Modelled from the spec (channel invariant): after any interleaving of
producer and consumer steps, the consumed records followed by the buffered
records followed by the still-pending records equal the original input
sequence, the capacity is unchanged, and the consumed sequence only ever
grows. -/
lemma sys_run_inv : ∀ (sched : List Bool) (s : SysSt),
    (sys_run s sched).out ++ (sys_run s sched).ring.buf ++
        (sys_run s sched).pending =
      s.out ++ s.ring.buf ++ s.pending ∧
    (sys_run s sched).ring.cap = s.ring.cap ∧
    s.out <+: (sys_run s sched).out := by
  intro sched
  induction sched with
  | nil => intro s; exact ⟨rfl, rfl, List.prefix_refl _⟩
  | cons b rest ih =>
    intro s
    have hstep :
        (sys_step s b).out ++ (sys_step s b).ring.buf ++
            (sys_step s b).pending =
          s.out ++ s.ring.buf ++ s.pending ∧
        (sys_step s b).ring.cap = s.ring.cap ∧
        s.out <+: (sys_step s b).out := by
      obtain ⟨pending, ⟨buf, cap⟩, out⟩ := s
      cases b
      · cases buf with
        | nil => exact ⟨rfl, rfl, List.prefix_refl _⟩
        | cons x bs =>
          refine ⟨?_, rfl, ?_⟩
          · simp [sys_step, ring_get, List.append_assoc]
          · simp only [sys_step, ring_get]
            exact List.prefix_append _ _
      · cases pending with
        | nil => exact ⟨rfl, rfl, List.prefix_refl _⟩
        | cons x ps =>
          by_cases hfull : buf.length < cap
          · refine ⟨?_, ?_, ?_⟩ <;>
              simp [sys_step, ring_put, hfull, List.append_assoc]
          · refine ⟨?_, ?_, ?_⟩ <;>
              simp [sys_step, ring_put, hfull]
    obtain ⟨h1, h2, h3⟩ := ih (sys_step s b)
    exact ⟨h1.trans hstep.1, h2.trans hstep.2.1, hstep.2.2.trans h3⟩

/-- Modelled from the spec (full delivery): with positive capacity, the
alternating put/get schedule transfers the whole input sequence to the
consumer in order. -/
lemma sys_run_drain (cap : Nat) (hcap : 0 < cap) :
    ∀ (l acc : List ring_entry),
    sys_run ⟨l, ⟨[], cap⟩, acc⟩ (alt_sched l.length) =
      ⟨[], ⟨[], cap⟩, acc ++ l⟩ := by
  intro l
  induction l with
  | nil => intro acc; simp [alt_sched, sys_run]
  | cons x rest ih =>
    intro acc
    have h1 : sys_step ⟨x :: rest, ⟨[], cap⟩, acc⟩ true =
        ⟨rest, ⟨[x], cap⟩, acc⟩ := by
      simp [sys_step, ring_put, hcap]
    have h2 : sys_step ⟨rest, ⟨[x], cap⟩, acc⟩ false =
        ⟨rest, ⟨[], cap⟩, acc ++ [x]⟩ := by
      simp [sys_step, ring_get]
    have hlen : (x :: rest).length = rest.length + 1 := rfl
    rw [hlen]
    show sys_run (sys_step (sys_step ⟨x :: rest, ⟨[], cap⟩, acc⟩ true) false)
        (alt_sched rest.length) = ⟨[], ⟨[], cap⟩, acc ++ x :: rest⟩
    rw [h1, h2, ih (acc ++ [x])]
    simp

/-- Claim C9 (spec-modelled channel): for any interleaving of producer and
consumer steps, the consumed records, the buffered records and the pending
records partition the produced sequence in order — the consumer receives
exactly the produced records, each exactly once, in production order, never
dropped or duplicated; `put` blocks precisely while the buffer is full and
`get` precisely while it is empty; and with positive capacity a full
alternating schedule delivers all N records. -/
theorem channel_fifo (inputs : List ring_entry) (cap : Nat)
    (sched : List Bool) :
    ((sys_run ⟨inputs, ⟨[], cap⟩, []⟩ sched).out ++
      (sys_run ⟨inputs, ⟨[], cap⟩, []⟩ sched).ring.buf ++
      (sys_run ⟨inputs, ⟨[], cap⟩, []⟩ sched).pending = inputs) ∧
    (sys_run ⟨inputs, ⟨[], cap⟩, []⟩ sched).out <+: inputs ∧
    (∀ (r : Ring) (x : ring_entry),
      ring_put r x = none ↔ r.cap ≤ r.buf.length) ∧
    (∀ r : Ring, ring_get r = none ↔ r.buf = []) ∧
    (0 < cap →
      (sys_run ⟨inputs, ⟨[], cap⟩, []⟩ (alt_sched inputs.length)).out =
        inputs) := by
  obtain ⟨h1, h2, h3⟩ := sys_run_inv sched ⟨inputs, ⟨[], cap⟩, []⟩
  simp only [List.nil_append] at h1
  refine ⟨h1, ?_, ?_, ?_, ?_⟩
  · have hp := List.prefix_append (sys_run ⟨inputs, ⟨[], cap⟩, []⟩ sched).out
      ((sys_run ⟨inputs, ⟨[], cap⟩, []⟩ sched).ring.buf ++
        (sys_run ⟨inputs, ⟨[], cap⟩, []⟩ sched).pending)
    rw [← List.append_assoc, h1] at hp
    exact hp
  · intro r x
    by_cases hfull : r.buf.length < r.cap
    · simp [ring_put, hfull] <;> omega
    · simp [ring_put, hfull] <;> omega
  · intro r
    cases hb : r.buf with
    | nil => simp [ring_get, hb]
    | cons y ys => simp [ring_get, hb]
  · intro hcap
    rw [sys_run_drain cap hcap inputs []]
    simp

/-- Witness for claim C9: a two-record production with capacity 4 is
delivered in full, in order. -/
theorem channel_fifo_witness :
    (sys_run ⟨[⟨1, 10, 0⟩, ⟨2, 20, 0⟩], ⟨[], 4⟩, []⟩
        (alt_sched 2)).out = [⟨1, 10, 0⟩, ⟨2, 20, 0⟩] :=
  (channel_fifo [⟨1, 10, 0⟩, ⟨2, 20, 0⟩] 4 []).2.2.2.2 (by decide)

/-- The assembled MCP3208 code is always within the 12-bit range. -/
lemma sample_range (cc d0 d1 d2 : Nat) :
    0 ≤ sample cc d0 d1 d2 ∧ sample cc d0 d1 d2 ≤ 4095 := by
  have h : (d0 % 256 % 2) * 2048 + (d1 % 256) * 8 + (d2 % 256) / 32 ≤
      4095 := by omega
  unfold sample
  refine ⟨Int.ofNat_nonneg _, ?_⟩
  calc Int.ofNat ((d0 % 256 % 2) * 2048 + (d1 % 256) * 8 + (d2 % 256) / 32)
      ≤ Int.ofNat 4095 := Int.ofNat_le.mpr h
    _ = 4095 := rfl

/-- A non-error reading never reaches the loop's error branch: no
diagnostic event is emitted. -/
lemma loop_body_no_report (up lo : Int) (iv : Timespec) (s : LoopSt)
    (v : Int) (tnow tpost : Timespec) (hv : v ≠ -1) :
    Event.reportError ∉ (loop_body up lo iv s v tnow tpost).2 := by
  obtain ⟨st, ep, ts⟩ := s
  cases st
  · by_cases hup : v ≥ up
    · rw [loop_body_chg_up up lo iv _ v tnow tpost hv rfl hup]
      simp
    · rw [loop_body_chg_stay up lo iv _ v tnow tpost hv rfl hup]
      simp
  · by_cases hlo : v ≤ lo
    · rw [loop_body_dis_down up lo iv _ v tnow tpost hv rfl hlo]
      simp
    · rw [loop_body_dis_stay up lo iv _ v tnow tpost hv rfl hlo]
      simp

/-- Claim C10: for every valid single-ended channel (CH0 through CH7) and
any SPI reply bytes, `get_sample_singleended` returns a 12-bit value in
[0, 4095] — one bit of the first reply byte, eight of the second, three of
the third — and never the -1 error sentinel; consequently the sampling
loop's `sample == -1` error branch is unreachable for such a reading and no
diagnostic event is ever emitted for it. -/
theorem adc_sample_in_range (ch : channel_singleended) (d0 d1 d2 : Nat)
    (up lo : Int) (iv : Timespec) (s : LoopSt) (tnow tpost : Timespec) :
    0 ≤ get_sample_singleended ch d0 d1 d2 ∧
    get_sample_singleended ch d0 d1 d2 ≤ 4095 ∧
    get_sample_singleended ch d0 d1 d2 ≠ -1 ∧
    Event.reportError ∉
      (loop_body up lo iv s (get_sample_singleended ch d0 d1 d2)
        tnow tpost).2 := by
  have hr : 0 ≤ get_sample_singleended ch d0 d1 d2 ∧
      get_sample_singleended ch d0 d1 d2 ≤ 4095 := by
    cases ch <;> simp only [get_sample_singleended] <;>
      exact sample_range _ d0 d1 d2
  have hne : get_sample_singleended ch d0 d1 d2 ≠ -1 := by
    intro hc
    rw [hc] at hr
    exact absurd hr.1 (by decide)
  exact ⟨hr.1, hr.2, hne,
    loop_body_no_report up lo iv s _ tnow tpost hne⟩

end LowEnergyMeter
